import Mathlib

/-!
Verification of the fuzzy box-art retrieval engine of mister-discordrp
(src/mister_discordrp.py) against its natural-language specification.

The Python source is shallowly embedded below.  Strings are modelled as
Lean `String`/`List Char`; Python `str.lower`/`str.isalnum` are modelled on
the ASCII fragment (the catalog keys and platform names the engine handles
are ASCII).  Python floats are modelled as exact rationals, and
`difflib.SequenceMatcher` is embedded by its matching-block algorithm
(autojunk, which only engages for second sequences of length >= 200, is not
modelled; no key in this program reaches that length).  Module-level mutable
caches (CACHE, _SYSTEMS_FROM_CACHE, _SYSTEM_ALIAS_MAP) are modelled by
passing the loaded cache explicitly; the alias map is recomputed from it,
which agrees with the lazily-built global because the cache is loaded once
and never mutated.
-/

/-- ASCII model of Python `str.lower` on one character. -/
def lowerC (c : Char) : Char :=
  if 65 ≤ c.toNat ∧ c.toNat ≤ 90 then Char.ofNat (c.toNat + 32) else c

/-- ASCII model of Python `str.isalnum` / the regex class [A-Za-z0-9]. -/
def isAlnumC (c : Char) : Bool :=
  (65 ≤ c.toNat && c.toNat ≤ 90) || (97 ≤ c.toNat && c.toNat ≤ 122) ||
    (48 ≤ c.toNat && c.toNat ≤ 57)

/-- The regex class [a-z0-9] used by `_tok`. -/
def isLowAlnumC (c : Char) : Bool :=
  (97 ≤ c.toNat && c.toNat ≤ 122) || (48 ≤ c.toNat && c.toNat ≤ 57)

/-- ASCII whitespace, for Python `str.strip` and the regex class \s. -/
def isWsC (c : Char) : Bool :=
  c.toNat = 32 || c.toNat = 9 || c.toNat = 10 || c.toNat = 13 ||
    c.toNat = 11 || c.toNat = 12

/-- Python `str.lower` on a character list. -/
def lowerList (l : List Char) : List Char := l.map lowerC

/-- Python `str.lower` on a string. -/
def lowerStr (s : String) : String := ⟨lowerList s.data⟩

/-- Python string comparison (by code point, lexicographic). -/
def strLtB : List Char → List Char → Bool
  | [], [] => false
  | [], _ :: _ => true
  | _ :: _, [] => false
  | a :: as, b :: bs =>
    if a.toNat < b.toNat then true
    else if b.toNat < a.toNat then false
    else strLtB as bs

/-- Python `str.startswith`: does `pre` occur as a prefix of `l`? -/
def startsWithB : List Char → List Char → Bool
  | _, [] => true
  | [], _ :: _ => false
  | a :: as, b :: bs => a == b && startsWithB as bs

/-- Python `needle in hay` substring test. -/
def substrB (needle : List Char) : List Char → Bool
  | [] => startsWithB [] needle
  | c :: rest => startsWithB (c :: rest) needle || substrB needle rest

/-- Python `str.strip` (ASCII whitespace model). -/
def trimWs (l : List Char) : List Char :=
  ((l.dropWhile isWsC).reverse.dropWhile isWsC).reverse

/-- Accumulator-based scanner for maximal runs (structural recursion so
that the kernel can evaluate it). -/
def runsByAux (p : Char → Bool) : List Char → List Char → List (List Char)
  | [], acc => if acc.isEmpty then [] else [acc.reverse]
  | c :: r, acc =>
    if p c then runsByAux p r (c :: acc)
    else if acc.isEmpty then runsByAux p r [] else acc.reverse :: runsByAux p r []

/-- Maximal runs of characters satisfying `p` (re.findall on a class). -/
def runsBy (p : Char → Bool) (l : List Char) : List (List Char) :=
  runsByAux p l []

/-- Python `" ".join` on character-list tokens. -/
def joinSpace : List (List Char) → List Char
  | [] => []
  | [t] => t
  | t :: ts => t ++ ' ' :: joinSpace ts

/-- Helper for `dedupFirst`, carrying the elements already emitted. -/
def dedupFirstAux : List String → List String → List String
  | [], _ => []
  | x :: r, seen =>
    if seen.contains x then dedupFirstAux r seen else x :: dedupFirstAux r (x :: seen)

/-- Keep the first occurrence of each element (Python set insertion order). -/
def dedupFirst (l : List String) : List String :=
  dedupFirstAux l []

/-- Embeds `_normalize_key` (line 96): lower-case, keep only alphanumerics. -/
def normalize_key (name : String) : String :=
  ⟨(name.data.map lowerC).filter isAlnumC⟩

/-! ## difflib.SequenceMatcher

The matching-block algorithm of CPython difflib with no junk predicate
(SequenceMatcher(None, a, b) on short inputs).  `flmRow` is one row of the
j2len dynamic program of find_longest_match; `bestUpdAux` replays the
ascending-j best-update scan (scanning every j is equivalent to scanning
only the j with b[j] = a[i], since other entries are 0 and never beat the
running best); `mbTotal` sums the sizes of all matching blocks. -/

/-- One step of the j2len dynamic program of `find_longest_match`. -/
def flmRow (c : Char) (b : List Char) (blo bhi : Nat) (prev : List Nat) : List Nat :=
  (List.range b.length).map (fun j =>
    if blo ≤ j ∧ j < bhi ∧ b.getD j 'a' = c then
      (if j = 0 then 0 else prev.getD (j - 1) 0) + 1
    else 0)

/-- Ascending-j scan updating the best block, strict improvement only. -/
def bestUpdAux (i : Nat) (row : List Nat) : Nat → Nat → Nat × Nat × Nat → Nat × Nat × Nat
  | _, 0, best => best
  | j, m + 1, best =>
    let k := row.getD j 0
    let best2 := if best.2.2 < k then (i + 1 - k, j + 1 - k, k) else best
    bestUpdAux i row (j + 1) m best2

/-- Main loop of `find_longest_match` over a-indices. -/
def flmAux (a b : List Char) (blo bhi : Nat) : Nat → Nat → List Nat → Nat × Nat × Nat → Nat × Nat × Nat
  | 0, _, _, best => best
  | steps + 1, i, row, best =>
    let row2 := flmRow (a.getD i 'a') b blo bhi row
    let best2 := bestUpdAux i row2 0 b.length best
    flmAux a b blo bhi steps (i + 1) row2 best2

/-- difflib `find_longest_match` on the window [alo,ahi) x [blo,bhi). -/
def find_longest_match (a b : List Char) (alo ahi blo bhi : Nat) : Nat × Nat × Nat :=
  flmAux a b blo bhi (ahi - alo) alo (List.replicate b.length 0) (alo, blo, 0)

/-- Total size of all matching blocks (fueled recursion over windows). -/
def mbTotal (a b : List Char) : Nat → Nat → Nat → Nat → Nat → Nat
  | 0, _, _, _, _ => 0
  | fuel + 1, alo, ahi, blo, bhi =>
    let r := find_longest_match a b alo ahi blo bhi
    if r.2.2 = 0 then 0
    else
      mbTotal a b fuel alo r.1 blo r.2.1 + r.2.2 +
        mbTotal a b fuel (r.1 + r.2.2) ahi (r.2.1 + r.2.2) bhi

/-- Number of matched characters M used by `SequenceMatcher.ratio`. -/
def seqMatches (a b : List Char) : Nat :=
  mbTotal a b (a.length + b.length + 1) 0 a.length 0 b.length

/-- Rational addition written through `mkRat` (the textbook formula
num1*den2 + num2*den1 over den1*den2, normalized); used instead of the
`Rat.add` of the library only so that the kernel can evaluate it. -/
def qAdd (a b : ℚ) : ℚ :=
  mkRat (a.num * (b.den : Int) + b.num * (a.den : Int)) (a.den * b.den)

/-- `SequenceMatcher(None, a, b).ratio()` as an exact rational:
2M/(|a|+|b|), and 1.0 when both inputs are empty. -/
def ratioQ (a b : List Char) : ℚ :=
  if a.length + b.length = 0 then mkRat 1 1
  else mkRat (2 * (seqMatches a b : Int)) (a.length + b.length)

/-! ## Filename and title tokenization -/

/-- Index of the last occurrence of `c` in `l`, if any. -/
def lastIdxOf (c : Char) (l : List Char) : Option Nat :=
  (List.range l.length).foldl (fun acc j => if l.getD j 'a' = c then some j else acc) none

/-- Embeds `_stem` (line 234), i.e. posixpath.splitext: drop the extension
after the last dot that follows the last path separator, unless the whole
basename up to that dot consists of dots. -/
def stem (name : String) : String :=
  let cs := name.data
  match lastIdxOf '.' cs, lastIdxOf '/' cs with
  | some di, none =>
    if (cs.take di).any (fun c => c ≠ '.') then ⟨cs.take di⟩ else name
  | some di, some si =>
    if si < di then
      if ((cs.drop (si + 1)).take (di - (si + 1))).any (fun c => c ≠ '.') then
        ⟨cs.take di⟩
      else name
    else name
  | none, _ => name

/-- Scan to the first close paren; fails at end of input or a newline,
mirroring the non-greedy group of the regex \((.*?)\) in which `.` does not
match a newline. -/
def splitAtCloseParen : List Char → Option (List Char × List Char)
  | [] => none
  | c :: r =>
    if c = ')' then some ([], r)
    else if c = '\n' then none
    else (splitAtCloseParen r).map (fun tr => (c :: tr.1, tr.2))

/-- Fueled scanner of re.findall for the pattern \((.*?)\): at each open
paren, capture up to the nearest close paren and continue after it; an
unmatched open paren is skipped.  The input shrinks by at least one
character per step, so fuel equal to the input length is never exhausted. -/
def parenTokensFuel : Nat → List Char → List (List Char)
  | 0, _ => []
  | _ + 1, [] => []
  | fuel + 1, c :: rest =>
    if c = '(' then
      match splitAtCloseParen rest with
      | some tr => tr.1 :: parenTokensFuel fuel tr.2
      | none => parenTokensFuel fuel rest
    else parenTokensFuel fuel rest

/-- Scanner of re.findall for the pattern \((.*?)\). -/
def parenTokensAux (l : List Char) : List (List Char) :=
  parenTokensFuel l.length l

/-- Embeds `_paren_tokens` (line 237): captured groups, stripped and
lower-cased. -/
def paren_tokens (s : String) : List String :=
  (parenTokensAux s.data).map (fun t => ⟨lowerList (trimWs t)⟩)

/-- Consume input up to and including the first close paren (the greedy
class [^)]* of the base-token regex, which does match newlines). -/
def dropCloseParen : List Char → Option (List Char)
  | [] => none
  | c :: r => if c = ')' then some r else dropCloseParen r

/-- If the input starts with an open paren, consume through the first
close paren. -/
def headOpenDrop : List Char → Option (List Char)
  | c :: r => if c = '(' then dropCloseParen r else none
  | [] => none

/-- Attempt to match the regex \s*\([^)]*\) at the head of the input,
returning the suffix after the match. -/
def parenGroupEnd (l : List Char) : Option (List Char) :=
  headOpenDrop (l.drop (l.takeWhile isWsC).length)

/-- Fueled scanner of re.sub(r"\s*\([^)]*\)", "", title): delete every
parenthesized group together with the whitespace immediately preceding it.
The input shrinks by at least one character per step, so fuel equal to the
input length is never exhausted. -/
def stripParensFuel : Nat → List Char → List Char
  | 0, _ => []
  | _ + 1, [] => []
  | fuel + 1, c :: r =>
    match parenGroupEnd (c :: r) with
    | some rest => stripParensFuel fuel rest
    | none => c :: stripParensFuel fuel r

/-- Embeds re.sub(r"\s*\([^)]*\)", "", title). -/
def stripParenGroups (l : List Char) : List Char :=
  stripParensFuel l.length l

/-- Embeds `_base_tokens` (line 243): strip parenthesized groups, lower,
take alphanumeric runs of length at least 4. -/
def base_tokens (title : String) : List String :=
  ((runsBy isAlnumC (lowerList (stripParenGroups title.data))).map
    (fun r => (⟨r⟩ : String))).filter (fun t => 4 ≤ t.length)

/-- Region words of the scorer (a Python set; only membership is used, so
the order below is immaterial). -/
def REGION_WORDS : List String :=
  ["usa", "europe", "japan", "world", "asia", "korea", "australia", "canada", "brazil"]

/-- Disqualifying qualifier words (set literal of line 36). -/
def BAD_QUALIFIERS : List String :=
  ["demo", "kiosk", "beta", "prototype", "proto", "sample", "prerelease",
    "trial", "review", "event", "not for resale"]

/-- Soft qualifier words (set literal of line 37). -/
def SOFT_QUALIFIERS : List String :=
  ["rev", "alt"]

/-- Does a parenthetical token contain a region word? -/
def regionish (t : String) : Bool :=
  REGION_WORDS.any (fun r => substrB r.data t.data)

/-- Embeds `_region_tokens_from_title` (line 240).  The Python set of
tokens is modelled as a list; only membership and non-emptiness of
intersections are consumed downstream, for which the two agree. -/
def region_tokens_from_title (title : String) : List String :=
  (paren_tokens title).filter regionish

/-! ## Platform alias resolver -/

/-- One box-art cache record: the tuple
(system_folder, filename, raw_url, blob_url, key) appended by
`_load_boxart_cache`. -/
structure CacheEntry where
  system : String
  fn : String
  rawUrl : String
  blobUrl : String
  key : String
deriving DecidableEq

/-- The set `_SYSTEMS_FROM_CACHE`, modelled as the first-occurrence-ordered
list of platform folders.  (CPython set iteration order is unspecified; no
claim below depends on it.) -/
def systemsFromCache (cache : List CacheEntry) : List String :=
  dedupFirst (cache.map (·.system))

/-- Embeds `_tok` (line 155): runs of [a-z0-9] in the lower-cased text. -/
def tokS (s : String) : List String :=
  (runsBy isLowAlnumC (lowerList s.data)).map (fun t => (⟨t⟩ : String))

/-- Embeds `_sys_match_score` (line 158): sequence ratio of the
whitespace-joined token lists plus a capped token-overlap bonus. -/
def sys_match_score (pretty canon : String) : ℚ :=
  let a := joinSpace (runsBy isLowAlnumC (lowerList pretty.data))
  let b := joinSpace (runsBy isLowAlnumC (lowerList canon.data))
  let overlap := ((dedupFirst (tokS pretty)).filter (fun t => (tokS canon).contains t)).length
  qAdd (ratioQ a b) (min (mkRat overlap 10) (mkRat 3 10))

/-- Embeds `_best_system_from_cache` (line 165): the maximal
(score, system) pair under Python tuple comparison (ties broken toward the
lexicographically larger system string by the reverse sort). -/
def best_system_from_cache (cache : List CacheEntry) (name : String) : Option (ℚ × String) :=
  match systemsFromCache cache with
  | [] => none
  | s :: rest =>
    some (rest.foldl
      (fun acc s2 =>
        let sc := sys_match_score name s2
        if acc.1 < sc ∨ (acc.1 = sc ∧ strLtB acc.2.data s2.data = true) then (sc, s2) else acc)
      (sys_match_score name s, s))

/-- The curated PRETTY_SYSTEMS list (lines 135-153). -/
def PRETTY_SYSTEMS : List String :=
  ["Adventure Vision", "Arcadia 2001", "Atari 2600", "Atari 5200", "Atari 7800", "Atari Lynx",
   "Bally Astrocade", "Casio PV-1000", "Channel F", "ColecoVision", "Famicom Disk System",
   "Gamate", "Game & Watch", "Game Boy", "Game Gear", "Gameboy (2 Player)", "Gameboy Advance",
   "Gameboy Advance (2 Player)", "Gameboy Color", "Genesis +", "Genesis 32X", "Intellivision",
   "Magnavox Odyssey2", "Master System", "Mega Duck", "Neo Geo CD", "Neo Geo MVS/AES", "NES",
   "Nintendo 64", "Sony PlayStation", "Pocket Challenge 2", "Pokemon Mini", "Saturn", "Sega CD",
   "SG-1000", "Super Gameboy", "Super NES", "SuperGrafx", "SuperVision", "TurboGrafx-16",
   "TurboGrafx-16 CD", "VC 4000", "Vectrex", "VTech CreatiVision", "WonderSwan",
   "WonderSwan Color", "Amiga", "Amstrad CPC", "Amstrad PCW", "Apogee BK-01", "Apple I",
   "Apple IIe", "Atari 800XL", "Atom", "BBC Micro/Master", "BK0011M", "Casio PV-2000",
   "Commodore 16", "Commodore 64", "Commodore PET 2001", "Commodore VIC-20", "EDSAC",
   "Electron", "Galaksija", "Interact", "Jupiter Ace", "Laser 350/500/700", "Lynx 48/96K", "M5",
   "Macintosh Plus", "Mattel Aquarius", "MSX (1chipMSX)", "MultiComp", "Orao", "Oric",
   "PC (486SX)", "PC/XT", "PDP-1", "PMD 85-2A", "RX-78 Gundam", "SAM Coupe", "Sinclair QL",
   "Specialist/MX", "SV-328", "Tandy MC-10", "Tatung Einstein", "TI-99/4A", "TRS-80",
   "TRS-80 CoCo 2", "TS-1500", "TS-Config", "Tutor", "UK101", "Vector-06C", "X68000",
   "ZX Spectrum", "ZX Spectrum Next", "Arduboy", "CHIP-8"]

/-- The extra alias table of `_build_system_aliases` (lines 188-203), in
dict-literal insertion order. -/
def EXTRA_ALIASES : List (String × String) :=
  [("PSX", "Sony PlayStation"), ("PS1", "Sony PlayStation"), ("SNES", "Super NES"),
   ("SFC", "Super NES"), ("FDS", "Famicom Disk System"), ("N64", "Nintendo 64"),
   ("SGB", "Super Gameboy"), ("Genesis", "Genesis +"), ("Mega Drive", "Genesis +"),
   ("32X", "Genesis 32X"), ("PCE", "TurboGrafx-16"), ("PCE-CD", "TurboGrafx-16 CD"),
   ("TG-16", "TurboGrafx-16"), ("TG-CD", "TurboGrafx-16 CD")]

/-- Dictionary lookup on an insertion-ordered association list (no key is
inserted twice: extra-alias keys are disjoint from PRETTY_SYSTEMS). -/
def aliasLookup (m : List (String × String)) (k : String) : Option String :=
  (m.find? (fun kv => kv.1 == k)).map (·.2)

/-- Embeds `_build_system_aliases` (line 173): keep each pretty name whose
best cache system scores at least 0.75, then append the extra aliases that
resolve through an already-present pretty name.  (In the source the extras
are looked up in the map built so far; since no extra value is itself an
extra key, looking up in the base map is equivalent.) -/
def build_system_aliases (cache : List CacheEntry) : List (String × String) :=
  let base := PRETTY_SYSTEMS.filterMap (fun pretty =>
    match best_system_from_cache cache pretty with
    | some sc => if mkRat 3 4 ≤ sc.1 then some (pretty, sc.2) else none
    | none => none)
  base ++ EXTRA_ALIASES.filterMap (fun kv => (aliasLookup base kv.2).map (fun c => (kv.1, c)))

/-- The static curated SYSTEM_MAP (lines 79-94). -/
def SYSTEM_MAP : List (String × String) :=
  [("NES", "Nintendo - Nintendo Entertainment System"),
   ("SNES", "Nintendo - Super Nintendo Entertainment System"),
   ("Game Boy", "Nintendo - Game Boy"),
   ("Game Boy Color", "Nintendo - Game Boy Color"),
   ("Game Boy Advance", "Nintendo - Game Boy Advance"),
   ("Genesis", "Sega - Mega Drive - Genesis"),
   ("Master System", "Sega - Master System - Mark III"),
   ("SMS", "Sega - Master System - Mark III"),
   ("PlayStation", "Sony - PlayStation"),
   ("PS2", "Sony - PlayStation 2"),
   ("PS3", "Sony - PlayStation 3"),
   ("PS4", "Sony - PlayStation 4"),
   ("Xbox", "Microsoft - Xbox"),
   ("Xbox 360", "Microsoft - Xbox 360")]

/-- The first definition of `_canon_system` (lines 128-131).  It is
shadowed by the later redefinition at line 208 and therefore unreachable at
every call site; it is embedded here only to state claims about it. -/
def canon_system_first (hint : String) : Option String :=
  if hint = "" then none else some ((aliasLookup SYSTEM_MAP hint).getD hint)

/-- Embeds the effective `_canon_system` (lines 208-232): derived alias
map, then case-insensitive match against cache systems, then fuzzy match
accepted at 0.80. -/
def canon_system (cache : List CacheEntry) (hint : String) : Option String :=
  if hint = "" then none
  else
    match aliasLookup (build_system_aliases cache) hint with
    | some v => some v
    | none =>
      match (systemsFromCache cache).find? (fun s => lowerStr s == lowerStr hint) with
      | some s => some s
      | none =>
        match best_system_from_cache cache hint with
        | some sc => if mkRat 4 5 ≤ sc.1 then some sc.2 else none
        | none => none

/-! ## Candidate scorer -/

/-- Threshold constant of line 133. -/
def CONFIDENCE_MIN_SCOPED : Int := 80

/-- Threshold constant of line 134. -/
def CONFIDENCE_MIN_UNSCOPED : Int := 90

/-- Python int(60 * SequenceMatcher(None, a, b).ratio()), computed exactly:
ratio is 2M/(|a|+|b|) (and 1.0 on two empty inputs), so the truncation is
the floor of 120M/(|a|+|b|). -/
def intRatio60 (a b : String) : Int :=
  if a.data.length + b.data.length = 0 then 60
  else Int.ofNat ((120 * seqMatches a.data b.data) / (a.data.length + b.data.length))

/-- The base score of `_score_candidate` (lines 250-257). -/
def scoreBase (target_key key : String) : Int :=
  if key = target_key then 100
  else if startsWithB key.data target_key.data || startsWithB target_key.data key.data then 96
  else if substrB target_key.data key.data then 92
  else intRatio60 target_key key

/-- Embeds `_score_candidate` (lines 249-279). -/
def score_candidate (stem0 key target_key : String) (region_hint : List String)
    (target_stem_len : Nat) (base_toks : List String) : Int :=
  let base0 := scoreBase target_key key
  let cand_paren := paren_tokens stem0
  let cand_regions := cand_paren.filter regionish
  let base1 :=
    if ¬region_hint.isEmpty ∧ cand_regions.any (fun t => region_hint.contains t) then
      base0 + 5
    else base0
  let cand_blob := joinSpace (cand_paren.map (·.data))
  let base2 := if BAD_QUALIFIERS.any (fun q => substrB q.data cand_blob) then base1 - 30 else base1
  let base3 := if SOFT_QUALIFIERS.any (fun q => substrB q.data cand_blob) then base2 - 5 else base2
  let extras := cand_paren.filter (fun t => !cand_regions.contains t)
  let base4 := if ¬extras.isEmpty then base3 - 3 * (extras.length : Int) else base3
  let base5 :=
    if ¬base_toks.isEmpty ∧ ¬base_toks.any (fun t => substrB t.data key.data) then
      base4 - 40
    else base4
  base5 - min 5 (max 0 (((stem0.length : Int) - (target_stem_len : Int)).fdiv 10))

/-- The same chain as `score_candidate` with the extraneous-annotation
step omitted; used to isolate that penalty. -/
def scoreNoExtras (stem0 key target_key : String) (region_hint : List String)
    (target_stem_len : Nat) (base_toks : List String) : Int :=
  let base0 := scoreBase target_key key
  let cand_paren := paren_tokens stem0
  let cand_regions := cand_paren.filter regionish
  let base1 :=
    if ¬region_hint.isEmpty ∧ cand_regions.any (fun t => region_hint.contains t) then
      base0 + 5
    else base0
  let cand_blob := joinSpace (cand_paren.map (·.data))
  let base2 := if BAD_QUALIFIERS.any (fun q => substrB q.data cand_blob) then base1 - 30 else base1
  let base3 := if SOFT_QUALIFIERS.any (fun q => substrB q.data cand_blob) then base2 - 5 else base2
  let base5 :=
    if ¬base_toks.isEmpty ∧ ¬base_toks.any (fun t => substrB t.data key.data) then
      base3 - 40
    else base3
  base5 - min 5 (max 0 (((stem0.length : Int) - (target_stem_len : Int)).fdiv 10))

/-- Modelled from the spec wording of the extraneous-annotation penalty as
read by claim C7: the -3 penalty skips tokens that contain a bad or soft
qualifier (tokens "already penalized above") in addition to region tokens.
Identical to `score_candidate` except for that filter. -/
def score_candidate_claimC7 (stem0 key target_key : String) (region_hint : List String)
    (target_stem_len : Nat) (base_toks : List String) : Int :=
  let base0 := scoreBase target_key key
  let cand_paren := paren_tokens stem0
  let cand_regions := cand_paren.filter regionish
  let base1 :=
    if ¬region_hint.isEmpty ∧ cand_regions.any (fun t => region_hint.contains t) then
      base0 + 5
    else base0
  let cand_blob := joinSpace (cand_paren.map (·.data))
  let base2 := if BAD_QUALIFIERS.any (fun q => substrB q.data cand_blob) then base1 - 30 else base1
  let base3 := if SOFT_QUALIFIERS.any (fun q => substrB q.data cand_blob) then base2 - 5 else base2
  let extras := cand_paren.filter (fun t =>
    !cand_regions.contains t &&
      !BAD_QUALIFIERS.any (fun q => substrB q.data t.data) &&
      !SOFT_QUALIFIERS.any (fun q => substrB q.data t.data))
  let base4 := if ¬extras.isEmpty then base3 - 3 * (extras.length : Int) else base3
  let base5 :=
    if ¬base_toks.isEmpty ∧ ¬base_toks.any (fun t => substrB t.data key.data) then
      base4 - 40
    else base4
  base5 - min 5 (max 0 (((stem0.length : Int) - (target_stem_len : Int)).fdiv 10))

/-! ## Match selector -/

/-- One element of the `scored` list of `find_boxart_and_url` (line 308):
the tuple (score, len(fn), sys_folder, fn, raw_url, blob_url, key). -/
structure Scored where
  score : Int
  fnLen : Nat
  sys : String
  fn : String
  rawUrl : String
  blobUrl : String
  key : String
deriving DecidableEq

/-- Python tuple comparison on `Scored` (strict less-than, component by
component, strings by code point). -/
def pyLtScored (x y : Scored) : Bool :=
  if x.score ≠ y.score then decide (x.score < y.score)
  else if x.fnLen ≠ y.fnLen then decide (x.fnLen < y.fnLen)
  else if x.sys ≠ y.sys then strLtB x.sys.data y.sys.data
  else if x.fn ≠ y.fn then strLtB x.fn.data y.fn.data
  else if x.rawUrl ≠ y.rawUrl then strLtB x.rawUrl.data y.rawUrl.data
  else if x.blobUrl ≠ y.blobUrl then strLtB x.blobUrl.data y.blobUrl.data
  else strLtB x.key.data y.key.data

/-- Stable descending insertion: `x` goes in front of the first element it
is not less than. -/
def insertDesc {α : Type} (lt : α → α → Bool) (x : α) : List α → List α
  | [] => [x]
  | y :: ys => if lt x y then y :: insertDesc lt x ys else x :: y :: ys

/-- Python `list.sort(reverse=True)`: stable descending sort. -/
def pySortDesc {α : Type} (lt : α → α → Bool) (l : List α) : List α :=
  l.foldr (insertDesc lt) []

/-- Build the scored tuple for one candidate of a query title. -/
def mkScored (title : String) (e : CacheEntry) : Scored :=
  { score := score_candidate (stem e.fn) e.key (normalize_key title)
      (region_tokens_from_title title) (stem title).length (base_tokens title)
    fnLen := e.fn.length
    sys := e.system
    fn := e.fn
    rawUrl := e.rawUrl
    blobUrl := e.blobUrl
    key := e.key }

/-- The `scoped` list of lines 293-295: entries of the resolved platform,
or empty when the hint did not resolve. -/
def scopedOf (cache : List CacheEntry) (hint : String) : List CacheEntry :=
  match canon_system cache hint with
  | some s => cache.filter (fun e => e.system == s)
  | none => []

/-- The `candidates` pool of lines 292-297: the scoped list when it is
non-empty, the whole cache otherwise. -/
def candidatePool (cache : List CacheEntry) (hint : String) : List CacheEntry :=
  if (scopedOf cache hint).isEmpty then cache else scopedOf cache hint

/-- The `min_needed` threshold of line 316. -/
def minNeededOf (cache : List CacheEntry) (hint : String) : Int :=
  if (scopedOf cache hint).isEmpty then CONFIDENCE_MIN_UNSCOPED else CONFIDENCE_MIN_SCOPED

/-- The exact-stem test of line 301: candidate filename stem equals the
stem of the query title, case-insensitively. -/
def exactStemPred (game_name : String) (e : CacheEntry) : Bool :=
  lowerStr (stem e.fn) == lowerStr (stem game_name)

/-- The scored candidates of a query, sorted by the reverse tuple sort of
line 314. -/
def rankedOf (cache : List CacheEntry) (hint title : String) : List Scored :=
  pySortDesc pyLtScored ((candidatePool cache hint).map (mkScored title))

/-- The confidence gate and cross-platform veto applied to the top-ranked
candidate (lines 316-325). -/
def gateDecision (sys_hint : Option String) (min_needed : Int) (top : Scored) :
    Option String × Option String :=
  if top.score < min_needed then (none, none)
  else
    match sys_hint with
    | some p => if top.sys = p then (some top.rawUrl, some top.blobUrl) else (none, none)
    | none => (some top.rawUrl, some top.blobUrl)

/-- Embeds `find_boxart_and_url` (lines 281-325).  NoMatch is the pair
(none, none). -/
def find_boxart_and_url (cache : List CacheEntry) (system_hint game_name : String) :
    Option String × Option String :=
  if cache.isEmpty then (none, none)
  else
    match (candidatePool cache system_hint).find? (exactStemPred game_name) with
    | some e => (some e.rawUrl, some e.blobUrl)
    | none =>
      match rankedOf cache system_hint game_name with
      | [] => (none, none)
      | top :: _ =>
        gateDecision (canon_system cache system_hint) (minNeededOf cache system_hint) top

/-! ## Claim theorems -/

/-- C8: for every query, when the catalog index is empty the engine entry
point returns NoMatch (the pair (none, none)) immediately; being a total
Lean function, it raises no exception, and no candidate is scored. -/
theorem c8_empty_catalog_nomatch (system_hint game_name : String) :
    find_boxart_and_url [] system_hint game_name = (none, none) := rfl

/-- C3: the cross-platform veto of lines 320-322, embedded as
`gateDecision` and applied by `find_boxart_and_url` to every scored
outcome: when the platform hint resolved to `p` and the top-ranked
candidate belongs to a different platform folder, the decision is NoMatch
for every threshold, hence even when the score clears it.  (End to end the
veto is unreachable: every resolution returns a platform present in the
catalog, so the scoped pool is never empty and the top candidate always
carries the resolved platform.) -/
theorem c3_cross_platform_veto (p : String) (min_needed : Int) (top : Scored)
    (h : top.sys ≠ p) :
    gateDecision (some p) min_needed top = (none, none) := by
  unfold gateDecision
  split
  · rfl
  · exact if_neg h

/-- C3 witness: a concrete top candidate from platform SNES against a
resolved hint NES is vetoed although its score 95 clears the threshold 90. -/
theorem c3_witness :
    (("SNES" : String) ≠ "NES" ∧ (90 : Int) ≤ 95) ∧
    gateDecision (some "NES") 90 ⟨95, 5, "SNES", "f.png", "r", "b", "k"⟩ = (none, none) :=
  ⟨⟨by decide, by decide⟩, c3_cross_platform_veto "NES" 90 _ (by decide)⟩

/-- C4: the base score of `_score_candidate` is, in precedence order with
the first matching case winning: 100 for equal keys, 96 when either key is
a prefix of the other, 92 when the query key is a substring of the
candidate key, and otherwise the floor of 60 times the sequence ratio,
i.e. floor(120 M / (|target| + |key|)) with M the difflib match count. -/
theorem c4_base_score_cases (key target_key : String) :
    (key = target_key → scoreBase target_key key = 100) ∧
    (key ≠ target_key →
      (startsWithB key.data target_key.data || startsWithB target_key.data key.data) = true →
      scoreBase target_key key = 96) ∧
    (key ≠ target_key →
      (startsWithB key.data target_key.data || startsWithB target_key.data key.data) = false →
      substrB target_key.data key.data = true → scoreBase target_key key = 92) ∧
    (key ≠ target_key →
      (startsWithB key.data target_key.data || startsWithB target_key.data key.data) = false →
      substrB target_key.data key.data = false →
      scoreBase target_key key =
        Int.ofNat ((120 * seqMatches target_key.data key.data) /
          (target_key.data.length + key.data.length))) := by
  refine ⟨?_, ?_, ?_, ?_⟩
  · intro h; simp [scoreBase, h]
  · intro h1 h2; simp [scoreBase, h1, h2]
  · intro h1 h2 h3; simp [scoreBase, h1, h2, h3]
  · intro h1 h2 h3
    have hne : ¬(target_key.data.length + key.data.length = 0) := by
      intro h0
      apply h1
      have hk : key.data = [] := List.eq_nil_of_length_eq_zero (by omega)
      have ht : target_key.data = [] := List.eq_nil_of_length_eq_zero (by omega)
      cases key; cases target_key; simp_all
    unfold scoreBase
    rw [if_neg h1, if_neg (by simp [h2]), if_neg (by simp [h3])]
    unfold intRatio60
    rw [if_neg hne]

/-- C4 witness: keys "abd" versus "abc" land in the fourth case; the
difflib match count is 2, so the base score is floor(240/6) = 40. -/
theorem c4_witness :
    (("abd" : String) ≠ "abc" ∧
      (startsWithB ("abd" : String).data ("abc" : String).data ||
        startsWithB ("abc" : String).data ("abd" : String).data) = false ∧
      substrB ("abc" : String).data ("abd" : String).data = false) ∧
    scoreBase "abc" "abd" = 40 := by
  refine ⟨⟨by decide, by decide, by decide⟩, ?_⟩
  have h := (c4_base_score_cases "abd" "abc").2.2.2 (by decide) (by decide) (by decide)
  rw [h]; decide

/-- C2 counterexample: the short-circuit of line 301 compares against the
stem of the query title (os.path.splitext drops everything after the last
dot), not the title itself.  For the title "Dr. Mario (Demo)" the title
stem is "Dr", so a catalog entry whose filename stem equals the full title
case-insensitively is not short-circuited; it is then scored 66 (bad
qualifier, extras and length penalties) and rejected by the unscoped gate,
so the query yields NoMatch, contradicting the claimed Match. -/
theorem c2_counterexample :
    (⟨"SNES", "Dr. Mario (Demo).png", "r", "b", "drmariodemo"⟩ : CacheEntry) ∈
      candidatePool [⟨"SNES", "Dr. Mario (Demo).png", "r", "b", "drmariodemo"⟩] "" ∧
    lowerStr (stem "Dr. Mario (Demo).png") = lowerStr "Dr. Mario (Demo)" ∧
    find_boxart_and_url [⟨"SNES", "Dr. Mario (Demo).png", "r", "b", "drmariodemo"⟩] ""
      "Dr. Mario (Demo)" = (none, none) :=
  ⟨by decide, by decide, by decide⟩

/-- C2 amended: if some entry of the (possibly scoped) candidate pool has
a filename stem equal, case-insensitively, to the stem of the query title
(the title after os.path.splitext), then `find_boxart_and_url` returns the
locator pair of the first such entry, bypassing scoring and the
confidence thresholds. -/
theorem c2_exact_stem_shortcircuit (cache : List CacheEntry)
    (system_hint game_name : String) (e : CacheEntry)
    (h : (candidatePool cache system_hint).find? (exactStemPred game_name) = some e) :
    find_boxart_and_url cache system_hint game_name = (some e.rawUrl, some e.blobUrl) := by
  cases cache with
  | nil =>
    exfalso
    have hs : scopedOf [] system_hint = [] := by
      unfold scopedOf
      split <;> simp
    have hp : candidatePool [] system_hint = [] := by
      unfold candidatePool
      rw [hs]
      simp
    rw [hp] at h
    simp at h
  | cons a l =>
    simp [find_boxart_and_url, h]

/-- C2 witness: the Chrono Trigger catalog entry is returned for the
query title "chrono trigger", any casing: its stem matches exactly. -/
theorem c2_witness :
    (candidatePool [⟨"SNES", "Chrono Trigger.png", "cr", "cb", "chronotrigger"⟩] "").find?
      (exactStemPred "chrono trigger") =
      some ⟨"SNES", "Chrono Trigger.png", "cr", "cb", "chronotrigger"⟩ ∧
    find_boxart_and_url [⟨"SNES", "Chrono Trigger.png", "cr", "cb", "chronotrigger"⟩] ""
      "chrono trigger" = (some "cr", some "cb") :=
  ⟨by decide,
    c2_exact_stem_shortcircuit [⟨"SNES", "Chrono Trigger.png", "cr", "cb", "chronotrigger"⟩]
      "" "chrono trigger" ⟨"SNES", "Chrono Trigger.png", "cr", "cb", "chronotrigger"⟩ (by decide)⟩

/-- C5 counterexample: the reverse tuple sort of line 314 breaks score
ties toward the larger tuple, i.e. the LONGER filename.  Both Zelda
entries score 96 for the query "Zelda", and the engine returns the entry
with the longer filename "Zelda II.png", not the shorter "Zelda I.png"
that the claim requires. -/
theorem c5_counterexample :
    (mkScored "Zelda" ⟨"SNES", "Zelda I.png", "r1", "b1", "zeldai"⟩).score =
      (mkScored "Zelda" ⟨"SNES", "Zelda II.png", "r2", "b2", "zeldaii"⟩).score ∧
    ("Zelda I.png" : String).length < ("Zelda II.png" : String).length ∧
    find_boxart_and_url
      [⟨"SNES", "Zelda I.png", "r1", "b1", "zeldai"⟩,
        ⟨"SNES", "Zelda II.png", "r2", "b2", "zeldaii"⟩] "" "Zelda" =
      (some "r2", some "b2") :=
  ⟨by decide, by decide, by decide⟩

/-- C5 amended: in the ranking sort of `find_boxart_and_url`, ties in
score are broken by LONGER filename first: among two scored candidates
with equal scores, the one with the greater filename length is ranked
ahead, whichever order they entered the sort in. -/
theorem c5_tie_longer_filename_first (x y : Scored)
    (h1 : x.score = y.score) (h2 : x.fnLen < y.fnLen) :
    pySortDesc pyLtScored [x, y] = [y, x] ∧ pySortDesc pyLtScored [y, x] = [y, x] := by
  have hxy : pyLtScored x y = true := by
    unfold pyLtScored
    rw [if_neg (by simp [h1]), if_pos (Nat.ne_of_lt h2)]
    exact decide_eq_true h2
  have hyx : pyLtScored y x = false := by
    unfold pyLtScored
    rw [if_neg (by simp [h1]), if_pos (Ne.symm (Nat.ne_of_lt h2))]
    exact decide_eq_false (Nat.not_lt.mpr (Nat.le_of_lt h2))
  constructor
  · simp [pySortDesc, insertDesc, hxy]
  · simp [pySortDesc, insertDesc, hyx]

/-- C5 witness: the two Zelda scored tuples of the counterexample, fed to
the sort in either order, rank the longer filename first. -/
theorem c5_witness :
    ((⟨96, 11, "SNES", "Zelda I.png", "r1", "b1", "zeldai"⟩ : Scored).score =
      (⟨96, 12, "SNES", "Zelda II.png", "r2", "b2", "zeldaii"⟩ : Scored).score ∧
      (⟨96, 11, "SNES", "Zelda I.png", "r1", "b1", "zeldai"⟩ : Scored).fnLen <
        (⟨96, 12, "SNES", "Zelda II.png", "r2", "b2", "zeldaii"⟩ : Scored).fnLen) ∧
    pySortDesc pyLtScored
      [⟨96, 11, "SNES", "Zelda I.png", "r1", "b1", "zeldai"⟩,
        ⟨96, 12, "SNES", "Zelda II.png", "r2", "b2", "zeldaii"⟩] =
      [⟨96, 12, "SNES", "Zelda II.png", "r2", "b2", "zeldaii"⟩,
        ⟨96, 11, "SNES", "Zelda I.png", "r1", "b1", "zeldai"⟩] :=
  ⟨⟨by decide, by decide⟩,
    (c5_tie_longer_filename_first
      ⟨96, 11, "SNES", "Zelda I.png", "r1", "b1", "zeldai"⟩
      ⟨96, 12, "SNES", "Zelda II.png", "r2", "b2", "zeldaii"⟩ (by decide) (by decide)).1⟩

set_option maxRecDepth 8000 in
/-- C6 counterexample: the second definition of `_canon_system` (line 208)
shadows the first (line 128), and never consults the static curated
SYSTEM_MAP.  For the recognized hint "NES" the curated map prescribes
"Nintendo - Nintendo Entertainment System", but on a catalog whose only
platform folder is "NES" the canonicalizer returns "NES" via the derived
alias map, so the static-map lookup is not the first (nor any) resolution
step of the effective code. -/
theorem c6_counterexample :
    aliasLookup SYSTEM_MAP "NES" = some "Nintendo - Nintendo Entertainment System" ∧
    canon_system [⟨"NES", "x.png", "r", "b", "x"⟩] "NES" = some "NES" ∧
    (some "NES" : Option String) ≠ some "Nintendo - Nintendo Entertainment System" :=
  ⟨by decide, by decide, by decide⟩

/-- C6 amended: the first resolution step of the effective canonicalizer
(the second, shadowing definition of `_canon_system`) is an exact lookup
in the DERIVED alias map built from the catalog, whose hit is returned
directly; the static curated SYSTEM_MAP is referenced only by the shadowed
first definition and plays no role. -/
theorem c6_alias_map_first_step (cache : List CacheEntry) (hint v : String)
    (h1 : hint ≠ "") (h2 : aliasLookup (build_system_aliases cache) hint = some v) :
    canon_system cache hint = some v := by
  unfold canon_system
  rw [if_neg h1, h2]

set_option maxRecDepth 8000 in
/-- C6 witness: on the one-platform catalog of the counterexample, the
derived alias map maps "NES" to "NES" and the canonicalizer returns it. -/
theorem c6_witness :
    (("NES" : String) ≠ "" ∧
      aliasLookup (build_system_aliases [⟨"NES", "x.png", "r", "b", "x"⟩]) "NES" =
        some "NES") ∧
    canon_system [⟨"NES", "x.png", "r", "b", "x"⟩] "NES" = some "NES" :=
  ⟨⟨by decide, by decide⟩,
    c6_alias_map_first_step [⟨"NES", "x.png", "r", "b", "x"⟩] "NES" "NES"
      (by decide) (by decide)⟩

/-- C1: when the non-empty catalog reaches the score-and-rank step (no
exact-stem hit), the top-ranked candidate is accepted only if its score
reaches the threshold of `minNeededOf` (80 when a resolved hint restricted
the pool to a non-empty set, 90 otherwise), and a top score below the
threshold yields NoMatch. -/
theorem c1_confidence_gate (cache : List CacheEntry) (system_hint game_name : String)
    (top : Scored) (rest : List Scored)
    (h1 : cache ≠ [])
    (h2 : (candidatePool cache system_hint).find? (exactStemPred game_name) = none)
    (h3 : rankedOf cache system_hint game_name = top :: rest) :
    (find_boxart_and_url cache system_hint game_name ≠ (none, none) →
      minNeededOf cache system_hint ≤ top.score) ∧
    (top.score < minNeededOf cache system_hint →
      find_boxart_and_url cache system_hint game_name = (none, none)) := by
  have hfind : find_boxart_and_url cache system_hint game_name =
      gateDecision (canon_system cache system_hint) (minNeededOf cache system_hint) top := by
    cases cache with
    | nil => exact absurd rfl h1
    | cons a l => simp [find_boxart_and_url, h2, h3]
  rw [hfind]
  unfold gateDecision
  by_cases hlt : top.score < minNeededOf cache system_hint
  · rw [if_pos hlt]
    exact ⟨fun hne => absurd rfl hne, fun _ => rfl⟩
  · rw [if_neg hlt]
    exact ⟨fun _ => le_of_not_lt hlt, fun hcon => absurd hcon hlt⟩

/-- C1 witness: an unscoped query "zzzz" against a one-entry catalog
ranks the single candidate with score -40, below the unscoped threshold
90, and the engine returns NoMatch. -/
theorem c1_witness :
    (([⟨"SNES", "Alpha.png", "r", "b", "alpha"⟩] : List CacheEntry) ≠ [] ∧
      (candidatePool [⟨"SNES", "Alpha.png", "r", "b", "alpha"⟩] "").find?
        (exactStemPred "zzzz") = none ∧
      rankedOf [⟨"SNES", "Alpha.png", "r", "b", "alpha"⟩] "" "zzzz" =
        [mkScored "zzzz" ⟨"SNES", "Alpha.png", "r", "b", "alpha"⟩] ∧
      (mkScored "zzzz" ⟨"SNES", "Alpha.png", "r", "b", "alpha"⟩).score <
        minNeededOf [⟨"SNES", "Alpha.png", "r", "b", "alpha"⟩] "") ∧
    find_boxart_and_url [⟨"SNES", "Alpha.png", "r", "b", "alpha"⟩] "" "zzzz" =
      (none, none) :=
  ⟨⟨by decide, by decide, by decide, by decide⟩,
    (c1_confidence_gate [⟨"SNES", "Alpha.png", "r", "b", "alpha"⟩] "" "zzzz"
      (mkScored "zzzz" ⟨"SNES", "Alpha.png", "r", "b", "alpha"⟩) []
      (by decide) (by decide) (by decide)).2 (by decide)⟩

/-- C7 counterexample: a parenthetical token that triggered the
bad-qualifier penalty still incurs the -3 extraneous-annotation penalty.
For the candidate stem "Foo (Demo)" with equal keys the code scores
100 - 30 - 3 = 67, whereas the claim (no additional -3 for the already
penalized "demo" token) predicts 70. -/
theorem c7_counterexample :
    score_candidate "Foo (Demo)" "foodemo" "foodemo" [] 10 [] = 67 ∧
    score_candidate_claimC7 "Foo (Demo)" "foodemo" "foodemo" [] 10 [] = 70 ∧
    (67 : Int) ≠ 70 :=
  ⟨by decide, by decide, by decide⟩

/-- C7 amended: the extraneous-annotation penalty subtracts exactly 3 per
parenthetical token that is not a region token — including tokens that
already triggered the bad- or soft-qualifier penalty: the final score is
the no-extras chain minus 3 times the number of non-region parenthetical
tokens. -/
theorem c7_extras_penalty_all_nonregion (stem0 key target_key : String)
    (region_hint : List String) (target_stem_len : Nat) (base_toks : List String) :
    score_candidate stem0 key target_key region_hint target_stem_len base_toks =
      scoreNoExtras stem0 key target_key region_hint target_stem_len base_toks -
        3 * (((paren_tokens stem0).filter (fun t => !regionish t)).length : Int) := by
  have hfil : (paren_tokens stem0).filter
      (fun t => !((paren_tokens stem0).filter regionish).contains t) =
      (paren_tokens stem0).filter (fun t => !regionish t) := by
    apply List.filter_congr
    intro t ht
    have hc : ((paren_tokens stem0).filter regionish).contains t = regionish t := by
      cases hr : regionish t with
      | true => simp [List.mem_filter, ht, hr]
      | false => simp [List.mem_filter, hr]
    rw [hc]
  simp only [score_candidate, scoreNoExtras]
  rw [hfil]
  cases hex : (paren_tokens stem0).filter (fun t => !regionish t) with
  | nil => simp
  | cons t0 ts =>
    have hne : ¬((t0 :: ts : List String).isEmpty = true) := by simp
    rw [if_pos hne]
    split_ifs <;> ring

/-- Auxiliary: `Char.ofNat` at a valid code point has that code point. -/
theorem toNat_charOfNat (n : Nat) (h : n.isValidChar) : (Char.ofNat n).toNat = n := by
  unfold Char.ofNat
  rw [dif_pos h]
  unfold Char.ofNatAux Char.toNat
  simp [Nat.toUInt32, UInt32.toNat, UInt32.ofNatCore]

/-- Code point of the lower-cased character. -/
theorem lowerC_toNat (c : Char) :
    (lowerC c).toNat = if 65 ≤ c.toNat ∧ c.toNat ≤ 90 then c.toNat + 32 else c.toNat := by
  unfold lowerC
  by_cases h : 65 ≤ c.toNat ∧ c.toNat ≤ 90
  · rw [if_pos h, if_pos h, toNat_charOfNat _ (Or.inl (by omega))]
  · rw [if_neg h, if_neg h]

/-- Lower-casing a character is idempotent. -/
theorem lowerC_idem (c : Char) : lowerC (lowerC c) = lowerC c := by
  have hno : ¬(65 ≤ (lowerC c).toNat ∧ (lowerC c).toNat ≤ 90) := by
    rw [lowerC_toNat]
    split_ifs with h <;> omega
  show (if 65 ≤ (lowerC c).toNat ∧ (lowerC c).toNat ≤ 90 then
    Char.ofNat ((lowerC c).toNat + 32) else lowerC c) = lowerC c
  rw [if_neg hno]

/-- Lower-casing preserves alphanumericity. -/
theorem isAlnumC_lowerC (c : Char) : isAlnumC (lowerC c) = isAlnumC c := by
  have ht := lowerC_toNat c
  rw [Bool.eq_iff_iff]
  simp only [isAlnumC, Bool.or_eq_true, Bool.and_eq_true, decide_eq_true_eq]
  by_cases h : 65 ≤ c.toNat ∧ c.toNat ≤ 90
  · rw [if_pos h] at ht
    rw [ht]
    omega
  · rw [if_neg h] at ht
    rw [ht]

/-- C9: the key normalizer is idempotent, and two strings whose
alphanumeric-only projections agree up to character case (so they differ
only in casing, whitespace and punctuation) normalize to the same key. -/
theorem c9_normalize_props (x y : String) :
    normalize_key (normalize_key x) = normalize_key x ∧
    ((x.data.filter isAlnumC).map lowerC = (y.data.filter isAlnumC).map lowerC →
      normalize_key x = normalize_key y) := by
  have hcomm : ∀ l : List Char,
      (l.map lowerC).filter isAlnumC = (l.filter isAlnumC).map lowerC := by
    intro l
    induction l with
    | nil => simp
    | cons c r ih =>
      simp only [List.map_cons, List.filter_cons, isAlnumC_lowerC]
      cases h : isAlnumC c <;> simp [h, ih]
  constructor
  · show (⟨((normalize_key x).data.map lowerC).filter isAlnumC⟩ : String) = normalize_key x
    have h1 : (normalize_key x).data.map lowerC = (normalize_key x).data := by
      have hfix : ∀ d ∈ (normalize_key x).data, lowerC d = d := by
        intro d hd
        have hd2 : d ∈ x.data.map lowerC := List.mem_of_mem_filter hd
        obtain ⟨c, _, hc⟩ := List.mem_map.mp hd2
        rw [← hc]
        exact lowerC_idem c
      conv_rhs => rw [← List.map_id ((normalize_key x).data)]
      exact List.map_congr_left hfix
    have h2 : ((normalize_key x).data).filter isAlnumC = (normalize_key x).data := by
      apply List.filter_eq_self.mpr
      intro a ha
      exact (List.mem_filter.mp ha).2
    rw [h1, h2]
  · intro h
    show (⟨(x.data.map lowerC).filter isAlnumC⟩ : String) =
      ⟨(y.data.map lowerC).filter isAlnumC⟩
    rw [hcomm x.data, hcomm y.data, h]

/-- C9 witness: the spec's example pair normalizes identically. -/
theorem c9_witness :
    ((("Street Fighter II" : String).data.filter isAlnumC).map lowerC =
      (("STREET-FIGHTER_II" : String).data.filter isAlnumC).map lowerC) ∧
    normalize_key "Street Fighter II" = normalize_key "STREET-FIGHTER_II" :=
  ⟨by decide, (c9_normalize_props "Street Fighter II" "STREET-FIGHTER_II").2 (by decide)⟩

/-- Auxiliary: `getD` on a list that is `map` over `range`. -/
theorem getD_eq_getElem? (l : List Nat) (j : Nat) : l.getD j 0 = (l[j]?).getD 0 := by
  rw [List.getD_eq_getElem?_getD]

/-- Auxiliary: `getD` of a mapped range evaluates the function in range. -/
theorem getD_map_range (f : Nat → Nat) (n j : Nat) :
    (((List.range n).map f).getD j 0) = if j < n then f j else 0 := by
  rcases Nat.lt_or_ge j n with h | h
  · rw [if_pos h, getD_eq_getElem?, List.getElem?_map, List.getElem?_range h]
    rfl
  · rw [if_neg (Nat.not_lt.mpr h), getD_eq_getElem?, List.getElem?_eq_none (by simpa using h)]
    rfl

/-- Auxiliary: a replicated zero row reads zero everywhere. -/
theorem getD_replicate_zero (n j : Nat) : (List.replicate n (0:Nat)).getD j 0 = 0 := by
  induction n generalizing j with
  | zero => rfl
  | succ n ih =>
    cases j with
    | zero => rfl
    | succ j => exact ih j

/-- One DP row of `find_longest_match` keeps run lengths bounded by the
number of processed a-indices and confined to the b-window. -/
theorem flmRow_inv (c : Char) (b : List Char) (blo bhi alo i : Nat) (prev : List Nat)
    (hprev : ∀ j, alo + prev.getD j 0 ≤ i ∧
      (1 ≤ prev.getD j 0 → j < bhi ∧ blo + prev.getD j 0 ≤ j + 1)) :
    ∀ j, alo + (flmRow c b blo bhi prev).getD j 0 ≤ i + 1 ∧
      (1 ≤ (flmRow c b blo bhi prev).getD j 0 →
        j < bhi ∧ blo + (flmRow c b blo bhi prev).getD j 0 ≤ j + 1) := by
  intro j
  have halo : alo ≤ i := by have := (hprev 0).1; omega
  unfold flmRow
  rw [getD_map_range]
  by_cases hj : j < b.length
  · rw [if_pos hj]
    by_cases hc : blo ≤ j ∧ j < bhi ∧ b.getD j 'a' = c
    · rw [if_pos hc]
      obtain ⟨hc1, hc2, -⟩ := hc
      by_cases hz : j = 0
      · subst hz
        rw [if_pos rfl]
        exact ⟨by omega, fun _ => ⟨hc2, by omega⟩⟩
      · rw [if_neg hz]
        obtain ⟨h1, h2⟩ := hprev (j - 1)
        refine ⟨by omega, fun _ => ⟨hc2, ?_⟩⟩
        by_cases hp : 1 ≤ prev.getD (j - 1) 0
        · have := h2 hp
          omega
        · omega
    · rw [if_neg hc]
      exact ⟨by omega, fun hh => absurd hh (by omega)⟩
  · rw [if_neg hj]
    exact ⟨by omega, fun hh => absurd hh (by omega)⟩

/-- The best-block update scan preserves the window invariants of the
running best block. -/
theorem bestUpdAux_inv (alo blo bhi i : Nat) (row : List Nat)
    (hrow : ∀ j, alo + row.getD j 0 ≤ i + 1 ∧
      (1 ≤ row.getD j 0 → j < bhi ∧ blo + row.getD j 0 ≤ j + 1)) :
    ∀ (m j0 : Nat) (best : Nat × Nat × Nat),
      (best.2.2 = 0 ∨ (1 ≤ best.2.2 ∧ alo ≤ best.1 ∧ best.1 + best.2.2 ≤ i + 1 ∧
        blo ≤ best.2.1 ∧ best.2.1 + best.2.2 ≤ bhi)) →
      ((bestUpdAux i row j0 m best).2.2 = 0 ∨
        (1 ≤ (bestUpdAux i row j0 m best).2.2 ∧
          alo ≤ (bestUpdAux i row j0 m best).1 ∧
          (bestUpdAux i row j0 m best).1 + (bestUpdAux i row j0 m best).2.2 ≤ i + 1 ∧
          blo ≤ (bestUpdAux i row j0 m best).2.1 ∧
          (bestUpdAux i row j0 m best).2.1 + (bestUpdAux i row j0 m best).2.2 ≤ bhi)) := by
  intro m
  induction m with
  | zero => intro j0 best h; simpa [bestUpdAux] using h
  | succ m ih =>
    intro j0 best h
    simp only [bestUpdAux]
    apply ih
    by_cases hk : best.2.2 < row.getD j0 0
    · rw [if_pos hk]
      right
      dsimp only
      obtain ⟨hr1, hr2⟩ := hrow j0
      have hk1 : 1 ≤ row.getD j0 0 := by omega
      obtain ⟨hbh, hbl⟩ := hr2 hk1
      refine ⟨by omega, by omega, by omega, by omega, by omega⟩
    · rw [if_neg hk]
      exact h

/-- The main loop of `find_longest_match` returns either no block or a
block contained in the windows [alo, i+steps) x [blo, bhi). -/
theorem flmAux_inv (a b : List Char) (blo bhi alo : Nat) :
    ∀ (steps i : Nat) (row : List Nat) (best : Nat × Nat × Nat),
      (∀ j, alo + row.getD j 0 ≤ i ∧
        (1 ≤ row.getD j 0 → j < bhi ∧ blo + row.getD j 0 ≤ j + 1)) →
      (best.2.2 = 0 ∨ (1 ≤ best.2.2 ∧ alo ≤ best.1 ∧ best.1 + best.2.2 ≤ i ∧
        blo ≤ best.2.1 ∧ best.2.1 + best.2.2 ≤ bhi)) →
      ((flmAux a b blo bhi steps i row best).2.2 = 0 ∨
        (1 ≤ (flmAux a b blo bhi steps i row best).2.2 ∧
          alo ≤ (flmAux a b blo bhi steps i row best).1 ∧
          (flmAux a b blo bhi steps i row best).1 +
            (flmAux a b blo bhi steps i row best).2.2 ≤ i + steps ∧
          blo ≤ (flmAux a b blo bhi steps i row best).2.1 ∧
          (flmAux a b blo bhi steps i row best).2.1 +
            (flmAux a b blo bhi steps i row best).2.2 ≤ bhi)) := by
  intro steps
  induction steps with
  | zero =>
    intro i row best hr hb
    simpa [flmAux] using hb
  | succ steps ih =>
    intro i row best hr hb
    simp only [flmAux]
    have hrow2 := flmRow_inv (a.getD i 'a') b blo bhi alo i row hr
    have hb1 : best.2.2 = 0 ∨ (1 ≤ best.2.2 ∧ alo ≤ best.1 ∧ best.1 + best.2.2 ≤ i + 1 ∧
        blo ≤ best.2.1 ∧ best.2.1 + best.2.2 ≤ bhi) := by
      rcases hb with h | ⟨h1, h2, h3, h4, h5⟩
      · exact Or.inl h
      · exact Or.inr ⟨h1, h2, by omega, h4, h5⟩
    have hbest2 := bestUpdAux_inv alo blo bhi i (flmRow (a.getD i 'a') b blo bhi row)
      hrow2 b.length 0 best hb1
    have hrec := ih (i + 1) (flmRow (a.getD i 'a') b blo bhi row)
      (bestUpdAux i (flmRow (a.getD i 'a') b blo bhi row) 0 b.length best) hrow2 hbest2
    rcases hrec with h | ⟨h1, h2, h3, h4, h5⟩
    · exact Or.inl h
    · exact Or.inr ⟨h1, h2, by omega, h4, h5⟩

/-- `find_longest_match` returns either no block or a block inside its
windows. -/
theorem flm_inv (a b : List Char) (alo ahi blo bhi : Nat) :
    (find_longest_match a b alo ahi blo bhi).2.2 = 0 ∨
      (1 ≤ (find_longest_match a b alo ahi blo bhi).2.2 ∧
        alo ≤ (find_longest_match a b alo ahi blo bhi).1 ∧
        (find_longest_match a b alo ahi blo bhi).1 +
          (find_longest_match a b alo ahi blo bhi).2.2 ≤ alo + (ahi - alo) ∧
        blo ≤ (find_longest_match a b alo ahi blo bhi).2.1 ∧
        (find_longest_match a b alo ahi blo bhi).2.1 +
          (find_longest_match a b alo ahi blo bhi).2.2 ≤ bhi) := by
  unfold find_longest_match
  apply flmAux_inv a b blo bhi alo (ahi - alo) alo (List.replicate b.length 0) (alo, blo, 0)
  · intro j
    rw [getD_replicate_zero]
    exact ⟨by omega, fun hh => absurd hh (by omega)⟩
  · exact Or.inl rfl

/-- The total matched size over a window pair is at most half the sum of
the window widths. -/
theorem mbTotal_le (a b : List Char) :
    ∀ (fuel alo ahi blo bhi : Nat), alo ≤ ahi → blo ≤ bhi →
      2 * mbTotal a b fuel alo ahi blo bhi ≤ (ahi - alo) + (bhi - blo) := by
  intro fuel
  induction fuel with
  | zero =>
    intro alo ahi blo bhi _ _
    simp [mbTotal]
  | succ fuel ih =>
    intro alo ahi blo bhi ha hb
    simp only [mbTotal]
    split
    · omega
    · rename_i hbs
      rcases flm_inv a b alo ahi blo bhi with h0 | ⟨h1, h2, h3, h4, h5⟩
      · exact absurd h0 hbs
      · have hL := ih alo (find_longest_match a b alo ahi blo bhi).1
          blo (find_longest_match a b alo ahi blo bhi).2.1 h2 h4
        have hR := ih
          ((find_longest_match a b alo ahi blo bhi).1 +
            (find_longest_match a b alo ahi blo bhi).2.2) ahi
          ((find_longest_match a b alo ahi blo bhi).2.1 +
            (find_longest_match a b alo ahi blo bhi).2.2) bhi
          (by omega) h5
        omega

/-- The difflib match count is at most half the total length, i.e. the
ratio is at most 1. -/
theorem two_seqMatches_le (a b : List Char) : 2 * seqMatches a b ≤ a.length + b.length := by
  have := mbTotal_le a b (a.length + b.length + 1) 0 a.length 0 b.length (by omega) (by omega)
  simpa [seqMatches] using this

/-- The similarity branch of the base score never exceeds 60. -/
theorem intRatio60_le (a b : String) : intRatio60 a b ≤ 60 := by
  unfold intRatio60
  split
  · exact le_refl 60
  · rename_i h
    have h2 := two_seqMatches_le a.data b.data
    have hdiv : (120 * seqMatches a.data b.data) / (a.data.length + b.data.length) ≤ 60 :=
      Nat.div_le_of_le_mul (by omega)
    rw [Int.ofNat_eq_natCast]
    exact_mod_cast hdiv

/-- The base score of the candidate scorer never exceeds 100. -/
theorem scoreBase_le (target_key key : String) : scoreBase target_key key ≤ 100 := by
  unfold scoreBase
  split_ifs
  · exact le_refl 100
  · norm_num
  · norm_num
  · exact le_trans (intRatio60_le target_key key) (by norm_num)

/-- C10: for every input the candidate score is at most 105 — the base
score is at most 100, the region bonus of +5 is the only positive
adjustment, and every other adjustment subtracts. -/
theorem c10_score_at_most_105 (stem0 key target_key : String) (region_hint : List String)
    (target_stem_len : Nat) (base_toks : List String) :
    score_candidate stem0 key target_key region_hint target_stem_len base_toks ≤ 105 := by
  have hb := scoreBase_le target_key key
  have hpen : (0 : Int) ≤ min 5 (max 0 (((stem0.length : Int) - (target_stem_len : Int)).fdiv 10)) :=
    le_min (by norm_num) (le_max_left 0 _)
  have hlen : (0 : Int) ≤ (((paren_tokens stem0).filter
      (fun t => !((paren_tokens stem0).filter regionish).contains t)).length : Int) :=
    Int.natCast_nonneg _
  simp only [score_candidate]
  split_ifs <;> omega
